import Mathlib

/-!
Verification of the terminal ASCII video player (src/lib.rs, src/main.rs).

This file gives a shallow embedding of the program's data model and
operations, and proves (or refutes) the specification claims about them.

Modelling conventions:
* Rust `usize`/`u64` values are modelled as `Nat`; the places where the
  source can overflow, divide by zero or index out of bounds are modelled
  explicitly (`Option`, dedicated `panicked` constructors) and noted.
* Rust `f32` values are modelled as exact rationals together with an
  explicit IEEE-754 binary32 round-to-nearest-even operation `roundF32`,
  sound on the normal range `[2^-40, 2^40)`; every floating value arising
  in this program lies well inside that range, and none is negative.
* `std::time::Duration` values are modelled by their number of whole
  milliseconds, which is how the source constructs them
  (`Duration::from_millis`).
-/

/-! ## Globals (mod `globals` in src/lib.rs) -/

def ROOT_DIR : String := "/home/klaudiusz/Desktop/Projects/rust/terminal_player/"

def SAMPLE_DIR : String := "samples/"

def DEF_WIDTH : Nat := 72

def FRAME_BACKLOG : Nat := 30 * 10

def get_sample_mp4 : String := ROOT_DIR ++ SAMPLE_DIR ++ "sample.mp4"

/-! ## Config (struct `Config` in src/lib.rs)

Field-for-field translation of the Rust struct.  `aspect_ratio : f32` is
modelled as an exact rational carrying the f32-rounded value, and
`delta_t_ms : Duration` as its number of milliseconds. -/

structure Config where
  file_name : String
  video_size : Nat × Nat
  width_chars : Nat
  sampling_rate : Nat × Nat
  aspect_ratio : ℚ
  frame_rate : Nat
  frame_size : Nat
  delta_t_ms : Nat
  deriving DecidableEq, Repr

/-- Result of `Config::from_args`.  Besides the `Result` the Rust function
returns, it can also terminate the process: `panic!` on an unparsable
width value and on the out-of-bounds index `args[i + 1]` when a width flag
is the final argument (modelled by `panicked`), and `exit(1)` on an
unknown flag (modelled by `exited`). -/
inductive FromArgsResult where
  | ok (cfg : Config)
  | err (msg : String)
  | exited (code : Nat)
  | panicked
  deriving DecidableEq, Repr

/-- Rust `str::starts_with`: does `s` begin with the pattern `p`?  (Stated
on the character lists; for the one-character and ASCII patterns used by
`from_args` this coincides with the byte-level check Rust performs.) -/
def strStartsWith (s p : String) : Bool := p.toList.isPrefixOf s.toList

/-- `str::parse::<usize>` — an optional leading `+` sign followed by one or
more ASCII digits, rejecting anything else and values above `usize::MAX`
(64-bit here). -/
def parseUsize (s : String) : Option Nat :=
  let cs := if s.toList.take 1 = ['+'] then s.toList.drop 1 else s.toList
  if cs ≠ [] ∧ cs.all (fun c => c.isDigit) then
    let v := cs.foldl (fun acc c => acc * 10 + (c.toNat - 48)) 0
    if v < 2 ^ 64 then some v else none
  else none

/-- The `for (i, arg) in args.iter().enumerate()` loop of
`Config::from_args`, threading the mutable `width` and `file_name`.
An argument starting with `-` that then starts with `--width` or `-w`
makes the loop parse `args[i + 1]` (out-of-bounds and parse failures are
panics); any other argument starting with `-` prints and exits with code
1; every remaining argument overwrites `file_name` — including, on a later
iteration, the width flag's own value. -/
def fromArgsGo (args : List String) :
    List (Nat × String) → Nat → String → FromArgsResult ⊕ (Nat × String)
  | [], width, fileName => Sum.inr (width, fileName)
  | (i, arg) :: rest, width, fileName =>
    if strStartsWith arg "-" then
      if strStartsWith arg "--width" ∨ strStartsWith arg "-w" then
        match args.get? (i + 1) with
        | none => Sum.inl FromArgsResult.panicked
        | some v =>
          match parseUsize v with
          | some n => fromArgsGo args rest n fileName
          | none => Sum.inl FromArgsResult.panicked
      else Sum.inl (FromArgsResult.exited 1)
    else fromArgsGo args rest width arg

/-- `Config::from_args`.  The loop runs first (so its exits and panics
happen regardless of the final length test); afterwards the function
returns `Ok` exactly when `args.len() > 1`, else the
"Provide a path to the file." error.  Note that `args` is the full argv
including the program name, and that the program name itself is treated
as a positional argument by the loop. -/
def fromArgs (args : List String) : FromArgsResult :=
  match fromArgsGo args args.enum DEF_WIDTH get_sample_mp4 with
  | Sum.inl r => r
  | Sum.inr (width, fileName) =>
    if 1 < args.length then
      FromArgsResult.ok
        { file_name := fileName
          video_size := (0, 0)
          width_chars := width
          sampling_rate := (0, 0)
          aspect_ratio := 0
          frame_rate := 30
          frame_size := 0
          delta_t_ms := 0 }
    else FromArgsResult.err "Provide a path to the file."

/-! ## An exact model of IEEE-754 binary32 arithmetic

Every f32 the program computes is nonnegative and lies in the normal
range, far from overflow and from the subnormals, so rounding an exact
rational to the nearest representable value (ties to even) is a faithful
model of every individual f32 operation the source performs. -/

/-- Greatest `e : ℤ` with `2 ^ e ≤ q`, computed by search over the window
`[-40, 40]`, which contains the binade of every value this program
produces (the search saturates outside the window; no caller leaves it). -/
def floorLog2 (q : ℚ) : ℤ :=
  (Nat.findGreatest (fun e => (2 : ℚ) ^ e ≤ q * 2 ^ 40) 80 : ℤ) - 40

/-- Round a rational to an integer, nearest, ties to even. -/
def roundHalfEven (q : ℚ) : ℤ :=
  if q - ⌊q⌋ < 1 / 2 then ⌊q⌋
  else if 1 / 2 < q - ⌊q⌋ then ⌊q⌋ + 1
  else if ⌊q⌋ % 2 = 0 then ⌊q⌋ else ⌊q⌋ + 1

/-- Round an exact rational to the nearest f32 (24-bit significand,
round-to-nearest-even).  Inputs are nonnegative throughout this
development. -/
def roundF32 (q : ℚ) : ℚ :=
  if q ≤ 0 then 0
  else (roundHalfEven (q / (2 : ℚ) ^ (floorLog2 q - 23)) : ℚ) *
    (2 : ℚ) ^ (floorLog2 q - 23)

/-- Rust `as usize` on a nonnegative f32: truncation toward zero (and 0
for the negative values, which never occur here). -/
def ratToUsize (q : ℚ) : Nat := (⌊q⌋).toNat

/-- `Config::add_decoder_info`, with the decoder metadata abstracted to
its pixel width `w`, height `h` and frame rate `fr` (the latter an f32 in
the source, modelled at the natural values the claims quantify over).
The statement `self.video_size.0 / self.width_chars` is a `usize`
division, which panics when `width_chars = 0`: that case is `none`.
`width_chars ^ 2` in the source is Rust's bitwise XOR, kept as such. -/
def addDecoderInfo (cfg : Config) (w h fr : Nat) : Option Config :=
  if cfg.width_chars = 0 then none
  else
    let aspect : ℚ := roundF32 (roundF32 (w : ℚ) / roundF32 (h : ℚ))
    let sampleX : Nat := w / cfg.width_chars
    some { cfg with
      aspect_ratio := aspect
      video_size := (w, h)
      sampling_rate :=
        (sampleX, ratToUsize (roundF32 (roundF32 (sampleX : ℚ) / aspect)))
      frame_rate := fr
      frame_size :=
        ratToUsize (roundF32 (roundF32 ((cfg.width_chars ^^^ 2 : Nat) : ℚ) * aspect))
      delta_t_ms := ratToUsize (roundF32 (1000 / roundF32 (fr : ℚ))) }

/-! ## The pure encoder (mod `ascii` in src/lib.rs) -/

/-- The 64-character palette, darkest to brightest.  (`\x7d` and `\x7b`
are the literal right and left curly-bracket characters.) -/
def CHAR_MAP : String :=
  " ,\":;Il!i~+_-?][\x7d\x7b1)(|\\/tfjrxnuvczXYUJCLQ0OZmwqpdbkhao*#MW&8%B@$"

/-- `ascii::rgb_to_ascii_char`.  The source indexes `pixel[0]`, `pixel[1]`,
`pixel[2]` (panicking on shorter slices; every call site passes chunks of
length exactly 3, see `rgb_to_ascii`).  Each f32 operation is modelled by
an exact operation followed by `roundF32`; the literals `0.21`, `0.72`,
`0.07` and `0.001307` are themselves f32-rounded.  `CHAR_MAP.len()` is the
byte length, 64.  `lum as usize` truncates; `.chars().nth(index)` with the
`unwrap_or(' ')` fallback closes the function. -/
def rgbToAsciiChar (pixel : List Nat) : Char :=
  let y : ℚ :=
    roundF32 (roundF32 (roundF32 (roundF32 (21 / 100) * roundF32 (pixel.getD 0 0 : ℚ)) +
        roundF32 (roundF32 (72 / 100) * roundF32 (pixel.getD 1 0 : ℚ))) +
      roundF32 (roundF32 (7 / 100) * roundF32 (pixel.getD 2 0 : ℚ)))
  let lum : ℚ := roundF32 (roundF32 (y * roundF32 (1307 / 1000000)) * roundF32 (CHAR_MAP.length : ℚ))
  (CHAR_MAP.toList.get? (ratToUsize lum)).getD ' '

/-- `slice::chunks n`, fuelled by the list length so that the recursion is
structural; `chunksList` below instantiates the fuel.  Rust's `chunks`
panics when `n = 0`; no call in this development passes 0. -/
def chunksAux (n : Nat) : Nat → List α → List (List α)
  | _, [] => []
  | 0, _ :: _ => []
  | fuel + 1, x :: xs => (x :: xs).take n :: chunksAux n fuel ((x :: xs).drop n)

/-- `slice::chunks n` as a list of chunks (the final chunk may be short). -/
def chunksList (n : Nat) (l : List α) : List (List α) := chunksAux n l.length l

/-- `Iterator::step_by k`: the elements at indices `0, k, 2k, …`, fuelled
like `chunksAux`.  Rust's `step_by` panics when `k = 0`; no call in this
development passes 0. -/
def stepByAux (k : Nat) : Nat → List α → List α
  | _, [] => []
  | 0, _ :: _ => []
  | fuel + 1, x :: xs => x :: stepByAux k fuel ((x :: xs).drop k)

/-- `Iterator::step_by k` on a list. -/
def stepBy (k : Nat) (l : List α) : List α := stepByAux k l.length l

/-- `ascii::rgb_to_ascii`.  Rows are the `video_size.0 * 3`-byte chunks of
the buffer, stepped by `sampling_rate.1 * 3` — exactly as in the source,
where the row iterator itself is stepped by three times the vertical
sampling stride.  Within a row, pixels are the 3-byte chunks stepped by
`sampling_rate.0`, each mapped through `rgb_to_ascii_char`, and every row
is terminated by a newline.  (Rust tuple fields `.0`/`.1` are Lean
`.1`/`.2`.) -/
def rgb_to_ascii (rgb : List Nat) (cfg : Config) : String :=
  String.mk (List.flatten
    ((stepBy (cfg.sampling_rate.2 * 3) (chunksList (cfg.video_size.1 * 3) rgb)).map
      (fun row => ((stepBy cfg.sampling_rate.1 (chunksList 3 row)).map rgbToAsciiChar) ++ ['\n'])))

/-! ## The player (struct `Player` and `Player::play` in src/lib.rs)

`Player::play` runs the consumer loop on the main task while
`spawn_frame_parser` runs the producer on a second thread.  The embedding
below models the consumer loop as a step function on an explicit state,
driven by a clock.  The cross-task elements are modelled as follows.

* The mpsc channel delivers the producer's sends in FIFO order; the
  consumer's view of it is the list `inbox` of frames the producer will
  deliver, followed (implicitly, by `inbox` running out) by the
  `NULL_FRAME` sentinel sent at `Error::ReadExhausted`.  `recv()` blocks
  until the producer's next send: whenever the consumer calls it, the
  producer is either already past its condition-variable wait or is woken
  by the signal write the consumer just performed (the consumer sets the
  signal to `Go` and notifies before every receive it attempts while the
  previous signal was `Stop`), so the blocking call always returns the
  next sent item.  `recv()` can never return `Err`: the `Player` value
  itself keeps `tx_data` (a `Sender`) alive for the whole loop, so the
  channel is never closed.
* `Instant::now()` is modelled by a clock function `Nat → Nat` (whole
  milliseconds) sampled once per iteration; `prev.elapsed() < delta_t` is
  `t - prev < delta` on naturals, and a render stores the sampled instant
  into `prev`.
* The condition variable only ever blocks the producer, never the
  consumer, so it needs no state beyond the shared `ControlSignal`.
-/

inductive ControlSignal where
  | stop
  | go
  deriving DecidableEq, Repr

/-- The end-of-stream sentinel `NULL_FRAME = "\0"`. -/
def NULL_FRAME : String := "\x00"

/-- `Player::new` sets `queue_size` to `globals::FRAME_BACKLOG` (300). -/
def queue_size : Nat := FRAME_BACKLOG

/-- The consumer-visible state of `Player::play`: the working deque
`queue` (`push_front` at the head, `pop_back` from the last element), the
frames the producer has yet to deliver (`inbox`), the two loop-local
flags, the shared signal, the pacing reference `prev`, and — as history
variables for the statements proved below — the list of rendered frames
and the clock readings at which they were rendered. -/
structure PState where
  queue : List String
  inbox : List String
  stream_exhausted : Bool
  reached_max_capacity : Bool
  signal : ControlSignal
  prev : Nat
  rendered : List String
  renderedAt : List Nat
  deriving DecidableEq, Repr

/-- The capacity match at the top of the loop body: the desired
`ControlSignal` together with the updated `reached_max_capacity` flag
(the second arm clears the flag as a side effect of computing `Go`). -/
def desiredAction (s : PState) : ControlSignal × Bool :=
  let capacity := queue_size - s.queue.length
  if capacity ≤ 10 then (ControlSignal.stop, s.reached_max_capacity)
  else if s.reached_max_capacity ∧ queue_size / 2 ≤ capacity then (ControlSignal.go, false)
  else (ControlSignal.go, s.reached_max_capacity)

/-- The signal write at the top of the loop body: the shared state is
updated (and the producer notified) only when the desired action is
`Stop` or the current signal is `Stop`. -/
def newSignal (s : PState) : ControlSignal :=
  if (desiredAction s).1 = ControlSignal.stop ∨ s.signal = ControlSignal.stop
  then (desiredAction s).1 else s.signal

/-- The first half of a loop iteration: compute the desired action and the
new flag, write the signal, and, if the stream is not exhausted and the
action is not `Stop`, perform one blocking `self.rx_data.recv()` and match
on it.  The received item is the head of `inbox`, or — once `inbox` is
exhausted — the `NULL_FRAME` sentinel the producer sends before
terminating.  A received sentinel (or any frame whose text equals it)
sets `stream_exhausted`; any other frame is pushed onto the front of the
deque.  (`recv()` never returns `Err`: the `Player` keeps a `Sender`
alive, see the section comment.) -/
def consumePhase (s : PState) : PState :=
  if ¬s.stream_exhausted ∧ (desiredAction s).1 ≠ ControlSignal.stop then
    match s.inbox with
    | [] =>
      { s with
        reached_max_capacity := (desiredAction s).2
        signal := newSignal s
        stream_exhausted := true }
    | f :: rest =>
      if f = NULL_FRAME then
        { s with
          reached_max_capacity := (desiredAction s).2
          signal := newSignal s
          stream_exhausted := true
          inbox := rest }
      else
        { s with
          reached_max_capacity := (desiredAction s).2
          signal := newSignal s
          queue := f :: s.queue
          inbox := rest }
  else
    { s with
      reached_max_capacity := (desiredAction s).2
      signal := newSignal s }

/-- The outcome of one iteration: continue looping, or break out. -/
inductive StepResult where
  | halt (s : PState)
  | next (s : PState)
  deriving DecidableEq, Repr

/-- The state carried by a `StepResult`. -/
def StepResult.state : StepResult → PState
  | StepResult.halt s => s
  | StepResult.next s => s

/-- The second half of a loop iteration, reached when
`should_skip_rendering` was false: `pop_back` the oldest frame — breaking
out if there is none and the stream is exhausted, idling otherwise —
render it, set `prev` to the current instant, and raise
`reached_max_capacity` if the deque is at `queue_size`. -/
def renderPhase (t : Nat) (s1 : PState) : StepResult :=
  match s1.queue.getLast? with
  | none =>
    if s1.stream_exhausted then StepResult.halt s1 else StepResult.next s1
  | some f =>
    if ¬s1.reached_max_capacity ∧ s1.queue.dropLast.length = queue_size then
      StepResult.next
        { s1 with
          queue := s1.queue.dropLast
          rendered := s1.rendered ++ [f]
          renderedAt := s1.renderedAt ++ [t]
          prev := t
          reached_max_capacity := true }
    else
      StepResult.next
        { s1 with
          queue := s1.queue.dropLast
          rendered := s1.rendered ++ [f]
          renderedAt := s1.renderedAt ++ [t]
          prev := t }

/-- One full iteration of the `loop` in `Player::play`, at clock reading
`t`: capacity evaluation, signal update and receive, then either the
`should_skip_rendering` shortcut (`continue`) or the pop/render half. -/
def stepIter (delta t : Nat) (s : PState) : StepResult :=
  let s1 := consumePhase s
  if t - s1.prev < delta then StepResult.next s1 else renderPhase t s1

/-- Run the consumer loop for at most `fuel` iterations, starting at
iteration index `i` (the clock is sampled at the iteration index).
Returns the final state and whether the loop `break`s within the fuel. -/
def loopRun (delta : Nat) (clock : Nat → Nat) : Nat → Nat → PState → PState × Bool
  | 0, _, s => (s, false)
  | fuel + 1, i, s =>
    match stepIter delta (clock i) s with
    | StepResult.halt s' => (s', true)
    | StepResult.next s' => loopRun delta clock fuel (i + 1) s'

/-- The state at the top of `Player::play`: empty deque, signal `Go`,
flags down, `prev` at the clock origin, and the producer's full stream
ahead. -/
def initState (frames : List String) : PState :=
  { queue := []
    inbox := frames
    stream_exhausted := false
    reached_max_capacity := false
    signal := ControlSignal.go
    prev := 0
    rendered := []
    renderedAt := [] }

/-- The consumer state reached after `fuel` iterations under a given
frame-interval `delta`, clock, and producer stream. -/
def reachableState (delta : Nat) (clock : Nat → Nat) (frames : List String) (fuel : Nat) : PState :=
  (loopRun delta clock fuel 0 (initState frames)).1

/-! ## Evaluation and bounds for the f32 model

Concrete f32 computations are settled through the following three
lemmas: `floorLog2_eq` pins the binade, `roundHalfEven_eq_low` /
`roundHalfEven_eq_high` perform the significand rounding, and
`roundF32_eq` assembles them. -/

theorem floorLog2_eq (q : ℚ) (e : ℤ) (hlo : -40 ≤ e) (hhi : e ≤ 40)
    (h1 : 2 ^ e ≤ q) (h2 : q < 2 ^ (e + 1)) : floorLog2 q = e := by
  unfold floorLog2
  have hcast : (((e + 40).toNat : ℤ)) = e + 40 := Int.toNat_of_nonneg (by omega)
  have hfind : Nat.findGreatest (fun k => (2 : ℚ) ^ k ≤ q * 2 ^ 40) 80 = (e + 40).toNat := by
    rw [Nat.findGreatest_eq_iff]
    refine ⟨by omega, ?_, ?_⟩
    · intro _
      have hc2 : ((2 : ℚ) ^ ((e + 40).toNat)) = (2 : ℚ) ^ (e + (40 : ℤ)) := by
        rw [← zpow_natCast, hcast]
      have h40 : ((2 : ℚ) ^ ((40 : ℤ))) = (2 : ℚ) ^ (40 : ℕ) := by norm_num
      rw [hc2, zpow_add₀ (two_ne_zero : (2 : ℚ) ≠ 0), h40]
      exact mul_le_mul_of_nonneg_right h1 (by positivity)
    · intro n hgt _hle hP
      have hlift : ((2 : ℚ) ^ (n : ℕ)) = (2 : ℚ) ^ ((n : ℤ)) := (zpow_natCast 2 n).symm
      have hbound : (2 : ℚ) ^ ((e + 41 : ℤ)) ≤ (2 : ℚ) ^ ((n : ℤ)) :=
        zpow_le_zpow_right₀ (by norm_num) (by omega)
      have hq40 : q * 2 ^ (40 : ℕ) < 2 ^ ((e + 41 : ℤ)) := by
        have h40 : (0 : ℚ) < 2 ^ (40 : ℕ) := by positivity
        calc q * 2 ^ (40 : ℕ) < 2 ^ (e + 1) * 2 ^ (40 : ℕ) :=
              mul_lt_mul_of_pos_right h2 h40
          _ = 2 ^ (e + 1) * 2 ^ ((40 : ℤ)) := by norm_num
          _ = 2 ^ ((e + 41 : ℤ)) := by
              rw [← zpow_add₀ (two_ne_zero : (2 : ℚ) ≠ 0)]; ring_nf
      rw [hlift] at hP
      exact absurd hP (not_le.mpr (lt_of_lt_of_le hq40 hbound))
  rw [hfind]
  omega

theorem roundHalfEven_eq_low (x : ℚ) (f : ℤ) (h1 : (f : ℚ) ≤ x)
    (h2 : x - f < 1 / 2) : roundHalfEven x = f := by
  have hfl : ⌊x⌋ = f := Int.floor_eq_iff.mpr ⟨h1, by linarith⟩
  unfold roundHalfEven
  rw [hfl, if_pos h2]

theorem roundHalfEven_eq_high (x : ℚ) (f : ℤ) (h1 : (f : ℚ) ≤ x)
    (h2 : 1 / 2 < x - f) (h3 : x < f + 1) : roundHalfEven x = f + 1 := by
  have hfl : ⌊x⌋ = f := Int.floor_eq_iff.mpr ⟨h1, h3⟩
  unfold roundHalfEven
  rw [hfl, if_neg (by linarith), if_pos h2]

theorem roundF32_eq (q r : ℚ) (e m : ℤ) (h0 : 0 < q)
    (hfl : floorLog2 q = e)
    (hm : roundHalfEven (q * 2 ^ (23 - e)) = m)
    (hr : (m : ℚ) * 2 ^ (e - 23) = r) :
    roundF32 q = r := by
  unfold roundF32
  rw [if_neg (not_le.mpr h0), hfl]
  have hdiv : q / (2 : ℚ) ^ (e - 23) = q * 2 ^ (23 - e) := by
    rw [div_eq_mul_inv, ← zpow_neg, neg_sub]
  rw [hdiv, hm, hr]

theorem roundHalfEven_intCast (z : ℤ) : roundHalfEven (z : ℚ) = z := by
  unfold roundHalfEven
  rw [Int.floor_intCast]
  norm_num

theorem roundHalfEven_ge_floor (x : ℚ) : ⌊x⌋ ≤ roundHalfEven x := by
  unfold roundHalfEven
  split_ifs <;> omega

/-- `roundF32` is the identity on the naturals up to 1000 (such values are
exactly representable in binary32; 1000 is all this development needs). -/
theorem roundF32_natCast (n : Nat) (h1 : 1 ≤ n) (h2 : n ≤ 1000) :
    roundF32 (n : ℚ) = (n : ℚ) := by
  set l := Nat.log 2 n with hl
  have hne : n ≠ 0 := by omega
  have hself : 2 ^ l ≤ n := Nat.pow_log_le_self 2 hne
  have hltp : n < 2 ^ (l + 1) := Nat.lt_pow_succ_log_self (by norm_num) n
  have hl9 : l ≤ 9 := by
    have hlt10 : n < 2 ^ 10 := by omega
    have := (Nat.lt_pow_iff_log_lt (by norm_num : 1 < 2) hne).mp hlt10
    omega
  have h0q : (0 : ℚ) < (n : ℚ) := by
    have : 0 < n := by omega
    exact_mod_cast this
  have hfl : floorLog2 (n : ℚ) = (l : ℤ) := by
    refine floorLog2_eq _ _ (by omega) (by omega) ?_ ?_
    · rw [show ((l : ℤ)) = ((l : ℕ) : ℤ) from rfl, zpow_natCast]
      exact_mod_cast hself
    · rw [show ((l : ℤ) + 1) = ((l + 1 : ℕ) : ℤ) by push_cast; ring, zpow_natCast]
      exact_mod_cast hltp
  have hxnat : (n : ℚ) * 2 ^ ((23 : ℤ) - l) = ((n * 2 ^ (23 - l) : ℕ) : ℚ) := by
    rw [show (23 : ℤ) - l = ((23 - l : ℕ) : ℤ) by omega, zpow_natCast]
    push_cast
    ring
  refine roundF32_eq _ _ (l : ℤ) ((n * 2 ^ (23 - l) : ℕ) : ℤ) h0q hfl ?_ ?_
  · rw [hxnat]
    exact_mod_cast roundHalfEven_intCast ((n * 2 ^ (23 - l) : ℕ) : ℤ)
  · push_cast
    rw [mul_assoc, ← zpow_natCast (2 : ℚ) (23 - l), ← zpow_add₀ (two_ne_zero : (2 : ℚ) ≠ 0)]
    rw [show ((23 - l : ℕ) : ℤ) + ((l : ℤ) - 23) = 0 by omega]
    norm_num

/-- Rounding sends values that are at least 1 to values that are at least
1 (the rounded value stays in or above the input's binade). -/
theorem one_le_roundF32 (q : ℚ) (h : 1 ≤ q) : 1 ≤ roundF32 q := by
  have h0 : ¬q ≤ 0 := by linarith
  set P : Nat → Prop := fun e => (2 : ℚ) ^ e ≤ q * 2 ^ 40 with hP
  have hP40 : P 40 := by
    simp only [hP]
    nlinarith [pow_pos (show (0 : ℚ) < 2 by norm_num) 40]
  have hge : 40 ≤ Nat.findGreatest P 80 := Nat.le_findGreatest (by norm_num) hP40
  have hspec : P (Nat.findGreatest P 80) := Nat.findGreatest_spec (by norm_num) hP40
  set E := Nat.findGreatest P 80 with hE
  have hfl : floorLog2 q = (E : ℤ) - 40 := by unfold floorLog2; rfl
  have hstep : (2 : ℚ) ^ ((E : ℤ)) ≤ q * 2 ^ ((40 : ℤ)) := by
    calc (2 : ℚ) ^ ((E : ℤ)) = (2 : ℚ) ^ (E : ℕ) := by rw [zpow_natCast]
      _ ≤ q * 2 ^ (40 : ℕ) := hspec
      _ = q * 2 ^ ((40 : ℤ)) := by norm_num
  have hbin : (2 : ℚ) ^ ((E : ℤ) - 40) ≤ q := by
    have hpos : (0 : ℚ) < 2 ^ ((40 : ℤ)) := by positivity
    have hgoal : (2 : ℚ) ^ ((E : ℤ) - 40) * 2 ^ ((40 : ℤ)) ≤ q * 2 ^ ((40 : ℤ)) := by
      rw [← zpow_add₀ (two_ne_zero : (2 : ℚ) ≠ 0),
        show (E : ℤ) - 40 + 40 = (E : ℤ) by ring]
      exact hstep
    exact le_of_mul_le_mul_right hgoal hpos
  unfold roundF32
  rw [if_neg h0, hfl]
  set u : ℤ := (E : ℤ) - 40 - 23 with hu
  have hm : (2 : ℚ) ^ ((23 : ℤ)) ≤ q / 2 ^ u := by
    rw [le_div_iff₀ (by positivity : (0 : ℚ) < 2 ^ u),
      ← zpow_add₀ (two_ne_zero : (2 : ℚ) ≠ 0),
      show (23 : ℤ) + u = (E : ℤ) - 40 by omega]
    exact hbin
  have hfloor : (2 ^ 23 : ℤ) ≤ roundHalfEven (q / 2 ^ u) := by
    refine le_trans ?_ (roundHalfEven_ge_floor _)
    rw [Int.le_floor]
    calc ((2 ^ 23 : ℤ) : ℚ) = (2 : ℚ) ^ ((23 : ℤ)) := by norm_num
      _ ≤ q / 2 ^ u := hm
  have h23R : (2 : ℚ) ^ ((23 : ℤ)) ≤ (roundHalfEven (q / 2 ^ u) : ℚ) := by
    calc (2 : ℚ) ^ ((23 : ℤ)) = ((2 ^ 23 : ℤ) : ℚ) := by norm_num
      _ ≤ _ := by exact_mod_cast hfloor
  calc (1 : ℚ) = (2 : ℚ) ^ ((0 : ℤ)) := by norm_num
    _ ≤ (2 : ℚ) ^ ((23 : ℤ) + u) := zpow_le_zpow_right₀ (by norm_num) (by omega)
    _ = (2 : ℚ) ^ ((23 : ℤ)) * 2 ^ u := zpow_add₀ (two_ne_zero : (2 : ℚ) ≠ 0) _ _
    _ ≤ (roundHalfEven (q / 2 ^ u) : ℚ) * 2 ^ u :=
        mul_le_mul_of_nonneg_right h23R (le_of_lt (by positivity))

theorem ratToUsize_eq (q : ℚ) (n : ℕ) (h1 : (n : ℚ) ≤ q) (h2 : q < n + 1) :
    ratToUsize q = n := by
  unfold ratToUsize
  have hfl : ⌊q⌋ = (n : ℤ) :=
    Int.floor_eq_iff.mpr ⟨by exact_mod_cast h1, by exact_mod_cast h2⟩
  rw [hfl]
  omega

theorem roundF32_of_nonpos (q : ℚ) (h : q ≤ 0) : roundF32 q = 0 := by
  unfold roundF32
  rw [if_pos h]

/-! ## Length and membership lemmas for the chunk/step iterators -/

theorem ceil_div_step (L n : Nat) (h1 : 1 ≤ n) (hL : 1 ≤ L) :
    (L - n + n - 1) / n + 1 = (L + n - 1) / n := by
  rcases le_or_lt n L with h | h
  · rw [show L - n + n - 1 = L - 1 by omega, show L + n - 1 = L - 1 + n by omega,
      Nat.add_div_right _ (by omega)]
  · rw [show L - n + n - 1 = n - 1 by omega, Nat.div_eq_of_lt (by omega)]
    have hone : (L + n - 1) / n = 1 :=
      Nat.div_eq_of_lt_le (by omega) (by omega)
    omega
theorem chunksAux_length {α : Type} (n : Nat) (hn : 1 ≤ n) :
    ∀ (fuel : Nat) (l : List α), l.length ≤ fuel →
      (chunksAux n fuel l).length = (l.length + n - 1) / n := by
  intro fuel
  induction fuel with
  | zero =>
    intro l hl
    cases l with
    | nil =>
      simp only [chunksAux, List.length_nil]
      exact (Nat.div_eq_of_lt (by omega)).symm
    | cons x xs => simp at hl
  | succ fuel ih =>
    intro l hl
    cases l with
    | nil =>
      simp only [chunksAux, List.length_nil]
      exact (Nat.div_eq_of_lt (by omega)).symm
    | cons x xs =>
      show ((x :: xs).take n :: chunksAux n fuel ((x :: xs).drop n)).length = _
      rw [List.length_cons,
        ih _ (by simp only [List.length_drop, List.length_cons] at *; omega),
        List.length_drop]
      exact ceil_div_step _ _ hn (by simp)

theorem chunksList_length {α : Type} (n : Nat) (hn : 1 ≤ n) (l : List α) :
    (chunksList n l).length = (l.length + n - 1) / n :=
  chunksAux_length n hn l.length l le_rfl

theorem stepByAux_length {α : Type} (k : Nat) (hk : 1 ≤ k) :
    ∀ (fuel : Nat) (l : List α), l.length ≤ fuel →
      (stepByAux k fuel l).length = (l.length + k - 1) / k := by
  intro fuel
  induction fuel with
  | zero =>
    intro l hl
    cases l with
    | nil =>
      simp only [stepByAux, List.length_nil]
      exact (Nat.div_eq_of_lt (by omega)).symm
    | cons x xs => simp at hl
  | succ fuel ih =>
    intro l hl
    cases l with
    | nil =>
      simp only [stepByAux, List.length_nil]
      exact (Nat.div_eq_of_lt (by omega)).symm
    | cons x xs =>
      show (x :: stepByAux k fuel ((x :: xs).drop k)).length = _
      rw [List.length_cons,
        ih _ (by simp only [List.length_drop, List.length_cons] at *; omega),
        List.length_drop]
      exact ceil_div_step _ _ hk (by simp)

theorem stepBy_length {α : Type} (k : Nat) (hk : 1 ≤ k) (l : List α) :
    (stepBy k l).length = (l.length + k - 1) / k :=
  stepByAux_length k hk l.length l le_rfl

/-! ## Newline accounting for the encoder output -/

theorem count_flatten_rows {β : Type} (f : β → List Char) :
    ∀ rows : List β, (∀ row ∈ rows, ('\n') ∉ f row) →
      List.count '\n' (List.flatten (rows.map (fun row => f row ++ ['\n']))) = rows.length := by
  intro rows
  induction rows with
  | nil => intro _; simp
  | cons r rs ih =>
    intro h
    simp only [List.map_cons, List.flatten_cons, List.count_append, List.length_cons]
    rw [ih (fun row hm => h row (List.mem_cons_of_mem r hm))]
    have hzero : List.count '\n' (f r) = 0 :=
      List.count_eq_zero.mpr (h r (List.mem_cons_self r rs))
    rw [hzero]
    simp
    omega

theorem charMap_getD_ne_newline (i : Nat) :
    (CHAR_MAP.toList.get? i).getD ' ' ≠ '\n' := by
  cases h : CHAR_MAP.toList.get? i with
  | none => simp [h]
  | some c =>
    simp only [h, Option.getD_some]
    exact (by decide : ∀ x ∈ CHAR_MAP.toList, x ≠ '\n') c (List.get?_mem h)

theorem rgbToAsciiChar_ne_newline (pixel : List Nat) :
    rgbToAsciiChar pixel ≠ '\n' := by
  unfold rgbToAsciiChar
  exact charMap_getD_ne_newline _

/-- The number of newline-terminated rows `rgb_to_ascii` emits for a
buffer of `R` pixel rows: one per kept row, i.e.
`ceil (R / (sampling_rate.1 * 3))` in Rust-field terms — the row iterator
is stepped by three times the vertical sampling stride. -/
theorem rgb_to_ascii_line_count (rgb : List Nat) (cfg : Config) (R : Nat)
    (hv : 1 ≤ cfg.sampling_rate.2) (hw : 1 ≤ cfg.video_size.1)
    (hlen : rgb.length = R * (cfg.video_size.1 * 3)) :
    List.count '\n' (rgb_to_ascii rgb cfg).toList =
      (R + cfg.sampling_rate.2 * 3 - 1) / (cfg.sampling_rate.2 * 3) := by
  unfold rgb_to_ascii
  rw [show ∀ cs : List Char, (String.mk cs).toList = cs from fun _ => rfl]
  rw [count_flatten_rows (fun row => (stepBy cfg.sampling_rate.1 (chunksList 3 row)).map rgbToAsciiChar)]
  · rw [stepBy_length _ (by omega), chunksList_length _ (by omega), hlen]
    have hchunks : (R * (cfg.video_size.1 * 3) + cfg.video_size.1 * 3 - 1) /
        (cfg.video_size.1 * 3) = R := by
      have hpos : 0 < cfg.video_size.1 * 3 := by omega
      rw [show R * (cfg.video_size.1 * 3) + cfg.video_size.1 * 3 - 1 =
        (cfg.video_size.1 * 3) * R + (cfg.video_size.1 * 3 - 1) by ring_nf; omega,
        Nat.mul_add_div hpos, Nat.div_eq_of_lt (by omega)]
      omega
    rw [hchunks]
  · intro row _ hmem
    obtain ⟨p, _, hp⟩ := List.mem_map.mp hmem
    exact rgbToAsciiChar_ne_newline p hp

/-! ## Concrete encoder evaluations (exact f32 chains) -/

/-- A uniform white pixel: the weighted luminance is (the f32 value near)
255, and the scale constant 0.001307 ≈ 1/765 sends it to palette index 21
— the character `'|'`, not the last palette entry. -/
theorem rgbToAsciiChar_white : rgbToAsciiChar [255, 255, 255] = '|' := by
  have hc021 : roundF32 (21 / 100) = 14092861 / 67108864 := by
    refine roundF32_eq _ _ (-3) (14092861) (by norm_num)
      (floorLog2_eq _ _ (by norm_num) (by norm_num) (by norm_num) (by norm_num)) ?_ (by norm_num)
    exact roundHalfEven_eq_low _ (14092861) (by norm_num) (by norm_num)
  have hc072 : roundF32 (72 / 100) = 3019899 / 4194304 := by
    refine roundF32_eq _ _ (-1) (12079596) (by norm_num)
      (floorLog2_eq _ _ (by norm_num) (by norm_num) (by norm_num) (by norm_num)) ?_ (by norm_num)
    exact (roundHalfEven_eq_high _ (12079595) (by norm_num) (by norm_num) (by norm_num)).trans (by norm_num)
  have hc007 : roundF32 (7 / 100) = 9395241 / 134217728 := by
    refine roundF32_eq _ _ (-4) (9395241) (by norm_num)
      (floorLog2_eq _ _ (by norm_num) (by norm_num) (by norm_num) (by norm_num)) ?_ (by norm_num)
    exact (roundHalfEven_eq_high _ (9395240) (by norm_num) (by norm_num) (by norm_num)).trans (by norm_num)
  have hc0013 : roundF32 (1307 / 1000000) = 11227045 / 8589934592 := by
    refine roundF32_eq _ _ (-10) (11227045) (by norm_num)
      (floorLog2_eq _ _ (by norm_num) (by norm_num) (by norm_num) (by norm_num)) ?_ (by norm_num)
    exact (roundHalfEven_eq_high _ (11227044) (by norm_num) (by norm_num) (by norm_num)).trans (by norm_num)
  have ha : roundF32 ((14092861 / 67108864 : ℚ) * 255) = 14037811 / 262144 := by
    refine roundF32_eq _ _ (5) (14037811) (by norm_num)
      (floorLog2_eq _ _ (by norm_num) (by norm_num) (by norm_num) (by norm_num)) ?_ (by norm_num)
    exact (roundHalfEven_eq_high _ (14037810) (by norm_num) (by norm_num) (by norm_num)).trans (by norm_num)
  have hb : roundF32 ((3019899 / 4194304 : ℚ) * 255) = 6016205 / 32768 := by
    refine roundF32_eq _ _ (7) (12032410) (by norm_num)
      (floorLog2_eq _ _ (by norm_num) (by norm_num) (by norm_num) (by norm_num)) ?_ (by norm_num)
    exact roundHalfEven_eq_low _ (12032410) (by norm_num) (by norm_num)
  have hc : roundF32 ((9395241 / 134217728 : ℚ) * 255) = 9358541 / 524288 := by
    refine roundF32_eq _ _ (4) (9358541) (by norm_num)
      (floorLog2_eq _ _ (by norm_num) (by norm_num) (by norm_num) (by norm_num)) ?_ (by norm_num)
    exact (roundHalfEven_eq_high _ (9358540) (by norm_num) (by norm_num) (by norm_num)).trans (by norm_num)
  have hab : roundF32 ((14037811 / 262144 : ℚ) + 6016205 / 32768) = 15541863 / 65536 := by
    refine roundF32_eq _ _ (7) (15541863) (by norm_num)
      (floorLog2_eq _ _ (by norm_num) (by norm_num) (by norm_num) (by norm_num)) ?_ (by norm_num)
    exact (roundHalfEven_eq_high _ (15541862) (by norm_num) (by norm_num) (by norm_num)).trans (by norm_num)
  have hy : roundF32 ((15541863 / 65536 : ℚ) + 9358541 / 524288) = 16711681 / 65536 := by
    refine roundF32_eq _ _ (7) (16711681) (by norm_num)
      (floorLog2_eq _ _ (by norm_num) (by norm_num) (by norm_num) (by norm_num)) ?_ (by norm_num)
    exact (roundHalfEven_eq_high _ (16711680) (by norm_num) (by norm_num) (by norm_num)).trans (by norm_num)
  have hz : roundF32 ((16711681 / 65536 : ℚ) * (11227045 / 8589934592)) = 5591595 / 16777216 := by
    refine roundF32_eq _ _ (-2) (11183190) (by norm_num)
      (floorLog2_eq _ _ (by norm_num) (by norm_num) (by norm_num) (by norm_num)) ?_ (by norm_num)
    exact roundHalfEven_eq_low _ (11183190) (by norm_num) (by norm_num)
  have hlum : roundF32 ((5591595 / 16777216 : ℚ) * 64) = 5591595 / 262144 := by
    refine roundF32_eq _ _ (4) (11183190) (by norm_num)
      (floorLog2_eq _ _ (by norm_num) (by norm_num) (by norm_num) (by norm_num)) ?_ (by norm_num)
    exact roundHalfEven_eq_low _ (11183190) (by norm_num) (by norm_num)
  have h255 := roundF32_natCast 255 (by norm_num) (by norm_num)
  have h64 := roundF32_natCast 64 (by norm_num) (by norm_num)
  simp only [rgbToAsciiChar, List.getD_cons_zero, List.getD_cons_succ]
  rw [show CHAR_MAP.length = 64 from rfl]
  rw [h255, h64]
  push_cast
  rw [hc021, hc072, hc007, hc0013, ha, hb, hc, hab, hy, hz, hlum]
  rw [show ratToUsize (5591595 / 262144 : ℚ) = 21 from
    ratToUsize_eq _ 21 (by norm_num) (by norm_num)]
  decide

/-- A uniform black pixel maps to palette index 0, the first (darkest)
character `' '`. -/
theorem rgbToAsciiChar_black : rgbToAsciiChar [0, 0, 0] = ' ' := by
  have h0 : roundF32 (((0 : ℕ) : ℚ)) = 0 := roundF32_of_nonpos _ (by norm_num)
  have hz0 : roundF32 (0 : ℚ) = 0 := roundF32_of_nonpos _ le_rfl
  simp only [rgbToAsciiChar, List.getD_cons_zero, List.getD_cons_succ]
  rw [h0]
  simp only [mul_zero, hz0, add_zero, zero_mul, zero_add]
  rw [show ratToUsize (0 : ℚ) = 0 from ratToUsize_eq _ 0 (by norm_num) (by norm_num)]
  decide

/-- A fixed encoder configuration: 2-pixel-wide video, strides (1, 1). -/
def cfgEnc2 : Config :=
  { file_name := ""
    video_size := (2, 4)
    width_chars := 2
    sampling_rate := (1, 1)
    aspect_ratio := 0
    frame_rate := 30
    frame_size := 0
    delta_t_ms := 0 }

/-- C2: the encoder maps a uniform black pixel to the first (darkest)
palette character, as claimed; but it maps a uniform white buffer to the
character `'|'` (palette index 21) at every sampled position, not to the
last (brightest) palette character `'$'` — the luminance scale constant
`0.001307 ≈ 1/765` never lets the weighted luminance (at most 255) reach
the top of the 64-character palette.  Evaluation of the code at the
failing input: a uniform white 2×4 buffer with strides (1, 1) renders as
two rows of `'|'`. -/
theorem c2_encoder_extremes_eval :
    rgbToAsciiChar [0, 0, 0] = ' ' ∧
    CHAR_MAP.toList.head? = some ' ' ∧
    rgbToAsciiChar [255, 255, 255] = '|' ∧
    rgb_to_ascii (List.replicate 24 255) cfgEnc2 = String.mk ['|', '|', '\n', '|', '|', '\n'] ∧
    CHAR_MAP.toList.getLast? = some '$' ∧
    ('|' : Char) ≠ '$' := by
  refine ⟨rgbToAsciiChar_black, by decide, rgbToAsciiChar_white, ?_, by decide, by decide⟩
  unfold rgb_to_ascii
  rw [show stepBy (cfgEnc2.sampling_rate.2 * 3)
      (chunksList (cfgEnc2.video_size.1 * 3) (List.replicate 24 (255 : Nat))) =
      [List.replicate 6 255, List.replicate 6 255] from by decide]
  simp only [List.map_cons, List.map_nil]
  rw [show stepBy cfgEnc2.sampling_rate.1 (chunksList 3 (List.replicate 6 (255 : Nat))) =
      [[255, 255, 255], [255, 255, 255]] from by decide]
  simp only [List.map_cons, List.map_nil]
  rw [rgbToAsciiChar_white]
  rfl

/-- A fixed encoder configuration: 1-pixel-wide video, strides (1, 1). -/
def cfgEnc3 : Config :=
  { file_name := ""
    video_size := (1, 3)
    width_chars := 1
    sampling_rate := (1, 1)
    aspect_ratio := 0
    frame_rate := 30
    frame_size := 0
    delta_t_ms := 0 }

/-- C3 (amended): for every buffer of `R` pixel rows and strides ≥ 1 the
encoder is total (no panic: every `chunks`/`step_by` argument is
positive), and the number of newline-terminated output rows is
`ceil (R / (3 * vertical_stride))` — the row iterator is stepped by three
times the vertical sampling stride, not the stride itself. -/
theorem c3_line_count_amended (rgb : List Nat) (cfg : Config) (R : Nat)
    (hh : 1 ≤ cfg.sampling_rate.1) (hv : 1 ≤ cfg.sampling_rate.2)
    (hw : 1 ≤ cfg.video_size.1)
    (hlen : rgb.length = R * (cfg.video_size.1 * 3)) :
    List.count '\n' (rgb_to_ascii rgb cfg).toList =
      (R + cfg.sampling_rate.2 * 3 - 1) / (cfg.sampling_rate.2 * 3) :=
  rgb_to_ascii_line_count rgb cfg R hv hw hlen

/-- C3 witness: a buffer of 2 rows of width 1 with strides (1, 1) yields
`ceil (2 / 3) = 1` output row. -/
theorem c3_line_count_witness :
    (1 ≤ cfgEnc3.sampling_rate.1) ∧ (1 ≤ cfgEnc3.sampling_rate.2) ∧
    (1 ≤ cfgEnc3.video_size.1) ∧
    (List.replicate 6 (0 : Nat)).length = 2 * (cfgEnc3.video_size.1 * 3) ∧
    List.count '\n' (rgb_to_ascii (List.replicate 6 0) cfgEnc3).toList =
      (2 + cfgEnc3.sampling_rate.2 * 3 - 1) / (cfgEnc3.sampling_rate.2 * 3) :=
  ⟨by decide, by decide, by decide, by decide,
    c3_line_count_amended _ _ 2 (by decide) (by decide) (by decide) (by decide)⟩

/-- C3 counterexample to the claim as stated: a buffer of `R = 3` rows of
width 1, with both strides 1, produces 1 output row, not
`ceil (R / vertical_stride) = 3`. -/
theorem c3_line_count_counterexample :
    cfgEnc3.sampling_rate.1 = 1 ∧ cfgEnc3.sampling_rate.2 = 1 ∧
    (List.replicate 9 (0 : Nat)).length = 3 * (cfgEnc3.video_size.1 * 3) ∧
    List.count '\n' (rgb_to_ascii (List.replicate 9 0) cfgEnc3).toList = 1 ∧
    (1 : Nat) ≠ (3 + cfgEnc3.sampling_rate.2 - 1) / cfgEnc3.sampling_rate.2 := by
  refine ⟨by decide, by decide, by decide, ?_, by decide⟩
  rw [rgb_to_ascii_line_count _ _ 3 (by decide) (by decide) (by decide)]
  decide

/-! ## Claims about the configuration pipeline (C4, C5, C6) -/

/-- Is a `from_args` outcome a successful `Config`? -/
def FromArgsResult.isOk : FromArgsResult → Bool
  | FromArgsResult.ok _ => true
  | _ => false

/-- The argument loop never aborts with a success: an early `Sum.inl`
outcome is an exit or a panic, never `ok`. -/
theorem fromArgsGo_inl_not_ok (args : List String) :
    ∀ (entries : List (Nat × String)) (w : Nat) (f : String) (r : FromArgsResult),
      fromArgsGo args entries w f = Sum.inl r → r.isOk = false := by
  intro entries
  induction entries with
  | nil => intro w f r h; simp [fromArgsGo] at h
  | cons e rest ih =>
    intro w f r h
    obtain ⟨i, arg⟩ := e
    simp only [fromArgsGo] at h
    split at h
    · split at h
      · split at h
        · injection h with h'; subst h'; rfl
        · split at h
          · exact ih _ _ _ h
          · injection h with h'; subst h'; rfl
      · injection h with h'; subst h'; rfl
    · exact ih _ _ _ h

/-- C5 (amended): `from_args` never succeeds when the argument list has at
most one element (the program name alone): it returns the
"Provide a path to the file." error, exits on an unknown flag, or panics
on a dangling width flag.  For longer lists the only check is
`args.len() > 1`, so an invocation consisting solely of flags and their
values does succeed (see the counterexample). -/
theorem c5_short_args_never_ok (args : List String) (h : args.length ≤ 1) :
    (fromArgs args).isOk = false := by
  unfold fromArgs
  cases hg : fromArgsGo args args.enum DEF_WIDTH get_sample_mp4 with
  | inl r => exact fromArgsGo_inl_not_ok args _ _ _ _ hg
  | inr p =>
    obtain ⟨w, f⟩ := p
    have hlen : ¬(1 < args.length) := by omega
    simp [hlen, FromArgsResult.isOk]

/-- C5 witness: the program name alone is rejected. -/
theorem c5_short_args_never_ok_witness :
    (["terminal_player"] : List String).length ≤ 1 ∧
    (fromArgs ["terminal_player"]).isOk = false :=
  ⟨by decide, c5_short_args_never_ok ["terminal_player"] (by decide)⟩

/-- C5 counterexample to the claim as stated: an invocation supplying only
a width flag and its value — no positional input-file argument — yields a
successful `Config` (whose file name is the flag's value "80"). -/
theorem c5_flags_only_counterexample :
    fromArgs ["terminal_player", "-w", "80"] = FromArgsResult.ok
      { file_name := "80", video_size := (0, 0), width_chars := 80,
        sampling_rate := (0, 0), aspect_ratio := 0, frame_rate := 30,
        frame_size := 0, delta_t_ms := 0 } := by
  decide

/-- C6 (amended): the width value must parse as a `usize` — a nonnegative
decimal (optionally `+`-signed) within `usize` range.  A value that
parses to `N` (including `N = 0`) produces a config with character width
`N` (the value is also re-read as a positional argument, becoming the
file name); a value that does not parse is a panic — a fatal error.
Stated for the canonical single-width-flag invocation shape. -/
theorem c6_width_flag_parse (p f v : String) (n : Nat)
    (hp : strStartsWith p "-" = false) (hf : strStartsWith f "-" = false)
    (hv : strStartsWith v "-" = false) :
    (parseUsize v = some n →
      fromArgs [p, f, "-w", v] = FromArgsResult.ok
        { file_name := v, video_size := (0, 0), width_chars := n,
          sampling_rate := (0, 0), aspect_ratio := 0, frame_rate := 30,
          frame_size := 0, delta_t_ms := 0 }) ∧
    (parseUsize v = none → fromArgs [p, f, "-w", v] = FromArgsResult.panicked) := by
  have w1 : strStartsWith "-w" "-" = true := by decide
  have w2 : strStartsWith "-w" "--width" = false := by decide
  have w3 : strStartsWith "-w" "-w" = true := by decide
  constructor <;> intro hn <;>
    simp [fromArgs, fromArgsGo, List.enum, List.enumFrom, hp, hf, hv, hn, w1, w2, w3]

/-- C6 witness: `-w 9` yields width 9; `-w x9` panics. -/
theorem c6_width_flag_parse_witness :
    (strStartsWith "terminal_player" "-" = false ∧ strStartsWith "a.mp4" "-" = false ∧
      strStartsWith "9" "-" = false ∧ parseUsize "9" = some 9 ∧
      fromArgs ["terminal_player", "a.mp4", "-w", "9"] = FromArgsResult.ok
        { file_name := "9", video_size := (0, 0), width_chars := 9,
          sampling_rate := (0, 0), aspect_ratio := 0, frame_rate := 30,
          frame_size := 0, delta_t_ms := 0 }) ∧
    (parseUsize "x9" = none ∧
      fromArgs ["terminal_player", "a.mp4", "-w", "x9"] = FromArgsResult.panicked) :=
  ⟨⟨by decide, by decide, by decide, by decide,
    (c6_width_flag_parse "terminal_player" "a.mp4" "9" 9
      (by decide) (by decide) (by decide)).1 (by decide)⟩,
   ⟨by decide,
    (c6_width_flag_parse "terminal_player" "a.mp4" "x9" 0
      (by decide) (by decide) (by decide)).2 (by decide)⟩⟩

/-- C6 counterexample to the claim as stated: the value `0` is not a
positive integer, yet `from_args` yields a successful `Config` with
character width 0 instead of a fatal configuration error. -/
theorem c6_zero_width_counterexample :
    fromArgs ["terminal_player", "video.mp4", "-w", "0"] = FromArgsResult.ok
      { file_name := "0", video_size := (0, 0), width_chars := 0,
        sampling_rate := (0, 0), aspect_ratio := 0, frame_rate := 30,
        frame_size := 0, delta_t_ms := 0 } := by
  decide

/-- The config produced by `from_args` for `terminal_player file.mp4`:
default width 72, decoder fields not yet filled in. -/
def cfgArgsDefault : Config :=
  { file_name := "file.mp4"
    video_size := (0, 0)
    width_chars := 72
    sampling_rate := (0, 0)
    aspect_ratio := 0
    frame_rate := 30
    frame_size := 0
    delta_t_ms := 0 }

/-- The config after `add_decoder_info` against a 60×40 30fps stream:
`sample_x = 60 / 72 = 0`, so both sub-sampling strides are 0. -/
def cfgSmallVideo : Config :=
  { file_name := "file.mp4"
    video_size := (60, 40)
    width_chars := 72
    sampling_rate := (0, 0)
    aspect_ratio := 3 / 2
    frame_rate := 30
    frame_size := 111
    delta_t_ms := 33 }

/-- C4 counterexample to the claim as stated: a plain
`terminal_player file.mp4` invocation (accepted by `from_args`) combined
with decoder metadata 60×40 at 30fps (positive dimensions, positive frame
rate) yields a config whose sub-sampling strides are both 0 — the claimed
invariant `strides ≥ 1` fails whenever the pixel width is below the
character width. -/
theorem c4_invariants_counterexample :
    fromArgs ["terminal_player", "file.mp4"] = FromArgsResult.ok cfgArgsDefault ∧
    addDecoderInfo cfgArgsDefault 60 40 30 = some cfgSmallVideo ∧
    cfgSmallVideo.sampling_rate.1 = 0 ∧ cfgSmallVideo.sampling_rate.2 = 0 ∧
    ¬(1 ≤ cfgSmallVideo.sampling_rate.1) := by
  refine ⟨by decide, ?_, by decide, by decide, by decide⟩
  have h60 : roundF32 ((60 : ℚ)) = 60 := by
    exact_mod_cast roundF32_natCast 60 (by norm_num) (by norm_num)
  have h40 : roundF32 ((40 : ℚ)) = 40 := by
    exact_mod_cast roundF32_natCast 40 (by norm_num) (by norm_num)
  have h30 : roundF32 ((30 : ℚ)) = 30 := by
    exact_mod_cast roundF32_natCast 30 (by norm_num) (by norm_num)
  have hz0 : roundF32 (0 : ℚ) = 0 := roundF32_of_nonpos _ le_rfl
  have hxor : (72 ^^^ 2 : ℕ) = 74 := by decide
  have r0 : ratToUsize (0 : ℚ) = 0 := ratToUsize_eq _ 0 (by norm_num) (by norm_num)
  have r111 : ratToUsize (111 : ℚ) = 111 := ratToUsize_eq _ 111 (by norm_num) (by norm_num)
  have r33 : ratToUsize (8738133 / 262144 : ℚ) = 33 :=
    ratToUsize_eq _ 33 (by norm_num) (by norm_num)
  have haspect : roundF32 ((3 : ℚ) / 2) = 3 / 2 := by
    refine roundF32_eq _ _ (0) (12582912) (by norm_num)
      (floorLog2_eq _ _ (by norm_num) (by norm_num) (by norm_num) (by norm_num)) ?_ (by norm_num)
    exact roundHalfEven_eq_low _ (12582912) (by norm_num) (by norm_num)
  have hdelta30 : roundF32 ((100 : ℚ) / 3) = 8738133 / 262144 := by
    refine roundF32_eq _ _ (5) (8738133) (by norm_num)
      (floorLog2_eq _ _ (by norm_num) (by norm_num) (by norm_num) (by norm_num)) ?_ (by norm_num)
    exact roundHalfEven_eq_low _ (8738133) (by norm_num) (by norm_num)
  have h74 : roundF32 ((74 : ℚ)) = 74 := by
    exact_mod_cast roundF32_natCast 74 (by norm_num) (by norm_num)
  have h111 : roundF32 ((111 : ℚ)) = 111 := by
    exact_mod_cast roundF32_natCast 111 (by norm_num) (by norm_num)
  unfold addDecoderInfo
  rw [if_neg (by decide : ¬cfgArgsDefault.width_chars = 0)]
  norm_num [cfgArgsDefault, cfgSmallVideo, h60, h40, h30, hz0, hxor, haspect,
    hdelta30, h74, h111, r0, r111, r33]

/-- C4 (amended): the claimed invariants do not hold unconditionally.
What does hold for every config completing `add_decoder_info` on positive
metadata: the character width is positive (the call divides by it and
would panic at 0); the horizontal stride is at least 1 exactly when the
character width is at most the pixel width; and the frame interval is
positive whenever the frame rate is between 1 and 1000 per second.  The
vertical stride and higher frame rates admit zero values (see the
counterexample). -/
theorem c4_invariants_amended (cfg cfg' : Config) (w h fr : Nat)
    (hw : 0 < w) (hh : 0 < h) (hfr : 0 < fr)
    (hinfo : addDecoderInfo cfg w h fr = some cfg') :
    0 < cfg'.width_chars ∧
    (1 ≤ cfg'.sampling_rate.1 ↔ cfg'.width_chars ≤ w) ∧
    (fr ≤ 1000 → 0 < cfg'.delta_t_ms) := by
  unfold addDecoderInfo at hinfo
  by_cases h0 : cfg.width_chars = 0
  · rw [if_pos h0] at hinfo
    exact absurd hinfo (by simp)
  · rw [if_neg h0] at hinfo
    injection hinfo with hinfo
    subst hinfo
    refine ⟨by dsimp only; omega, ?_, ?_⟩
    · dsimp only
      exact Nat.one_le_div_iff (by omega)
    · intro hle
      dsimp only
      rw [roundF32_natCast fr (by omega) hle]
      have h1q : (1 : ℚ) ≤ 1000 / (fr : ℚ) := by
        rw [le_div_iff₀ (by exact_mod_cast hfr)]
        norm_num
        exact_mod_cast hle
      have hone := one_le_roundF32 _ h1q
      unfold ratToUsize
      have hfl : (1 : ℤ) ≤ ⌊roundF32 (1000 / (fr : ℚ))⌋ := by
        rw [Int.le_floor]
        exact_mod_cast hone
      omega

/-- A width-1 config before decoder info. -/
def cfgW4 : Config :=
  { file_name := "w"
    video_size := (0, 0)
    width_chars := 1
    sampling_rate := (0, 0)
    aspect_ratio := 0
    frame_rate := 30
    frame_size := 0
    delta_t_ms := 0 }

/-- `cfgW4` after decoder info for a 1×1 stream at 1 fps. -/
def cfgW4' : Config :=
  { file_name := "w"
    video_size := (1, 1)
    width_chars := 1
    sampling_rate := (1, 1)
    aspect_ratio := 1
    frame_rate := 1
    frame_size := 3
    delta_t_ms := 1000 }

theorem addDecoderInfo_cfgW4 : addDecoderInfo cfgW4 1 1 1 = some cfgW4' := by
  have h1 : roundF32 ((1 : ℚ)) = 1 := by
    exact_mod_cast roundF32_natCast 1 (by norm_num) (by norm_num)
  have h3 : roundF32 ((3 : ℚ)) = 3 := by
    exact_mod_cast roundF32_natCast 3 (by norm_num) (by norm_num)
  have h1000 : roundF32 ((1000 : ℚ)) = 1000 := by
    exact_mod_cast roundF32_natCast 1000 (by norm_num) (by norm_num)
  have hxor : (1 ^^^ 2 : ℕ) = 3 := by decide
  have r1 : ratToUsize (1 : ℚ) = 1 := ratToUsize_eq _ 1 (by norm_num) (by norm_num)
  have r3 : ratToUsize (3 : ℚ) = 3 := ratToUsize_eq _ 3 (by norm_num) (by norm_num)
  have r1000 : ratToUsize (1000 : ℚ) = 1000 := ratToUsize_eq _ 1000 (by norm_num) (by norm_num)
  unfold addDecoderInfo
  rw [if_neg (by decide : ¬cfgW4.width_chars = 0)]
  norm_num [cfgW4, cfgW4', h1, h3, h1000, hxor, r1, r3, r1000]

/-- C4 witness: a 1×1 stream at 1 fps against a width-1 config satisfies
every hypothesis and every amended conclusion. -/
theorem c4_invariants_amended_witness :
    (0 < 1) ∧ addDecoderInfo cfgW4 1 1 1 = some cfgW4' ∧
    (0 < cfgW4'.width_chars ∧
      (1 ≤ cfgW4'.sampling_rate.1 ↔ cfgW4'.width_chars ≤ 1) ∧
      (1 ≤ 1000 → 0 < cfgW4'.delta_t_ms)) :=
  ⟨by decide, addDecoderInfo_cfgW4,
    c4_invariants_amended cfgW4 cfgW4' 1 1 1 (by decide) (by decide) (by decide)
      addDecoderInfo_cfgW4⟩

/-! ## Claims about the consumer loop (C1, C7, C8, C9, C10) -/

theorem desiredAction_flag_false (s : PState) (h : s.reached_max_capacity = false) :
    (desiredAction s).2 = false := by
  simp only [desiredAction, h]
  split_ifs <;> rfl

theorem desiredAction_stop_iff (s : PState) :
    (desiredAction s).1 = ControlSignal.stop ↔ queue_size - s.queue.length ≤ 10 := by
  simp only [desiredAction]
  split_ifs <;> simp_all

/-- The C10 invariant: the deque holds at most `queue_size - 10` frames
and the `reached_max_capacity` flag is down. -/
def Inv10 (s : PState) : Prop :=
  s.queue.length ≤ queue_size - 10 ∧ s.reached_max_capacity = false

theorem consumePhase_inv10 (s : PState) (h : Inv10 s) : Inv10 (consumePhase s) := by
  obtain ⟨hlen, hflag⟩ := h
  have hq : queue_size = 300 := rfl
  unfold consumePhase
  split_ifs with hcond
  · obtain ⟨hne, hsig⟩ := hcond
    have hcap : ¬(queue_size - s.queue.length ≤ 10) := by
      intro hc
      exact hsig ((desiredAction_stop_iff s).mpr hc)
    cases hin : s.inbox with
    | nil => exact ⟨hlen, desiredAction_flag_false s hflag⟩
    | cons f rest =>
      dsimp only
      split_ifs with hnull
      · exact ⟨hlen, desiredAction_flag_false s hflag⟩
      · refine ⟨?_, desiredAction_flag_false s hflag⟩
        simp only [List.length_cons]
        omega
  · exact ⟨hlen, desiredAction_flag_false s hflag⟩

theorem renderPhase_inv10 (t : Nat) (s1 : PState) (h : Inv10 s1) :
    Inv10 (renderPhase t s1).state := by
  obtain ⟨hlen, hflag⟩ := h
  have hq : queue_size = 300 := rfl
  unfold renderPhase
  cases hpop : s1.queue.getLast? with
  | none => split_ifs <;> exact ⟨hlen, hflag⟩
  | some f =>
    dsimp only
    split_ifs with hcond
    · obtain ⟨hnf, hfull⟩ := hcond
      simp only [List.length_dropLast] at hfull
      omega
    · refine ⟨?_, hflag⟩
      simp only [StepResult.state, List.length_dropLast]
      omega

theorem stepIter_inv10 (delta t : Nat) (s : PState) (h : Inv10 s) :
    Inv10 (stepIter delta t s).state := by
  unfold stepIter
  dsimp only
  split_ifs with hskip
  · exact consumePhase_inv10 s h
  · exact renderPhase_inv10 t _ (consumePhase_inv10 s h)

theorem loopRun_inv10 (delta : Nat) (clock : Nat → Nat) :
    ∀ (fuel i : Nat) (s : PState), Inv10 s → Inv10 (loopRun delta clock fuel i s).1 := by
  intro fuel
  induction fuel with
  | zero => intro i s h; exact h
  | succ fuel ih =>
    intro i s h
    have hstep := stepIter_inv10 delta (clock i) s h
    unfold loopRun
    cases hs : stepIter delta (clock i) s with
    | halt s' => rw [hs] at hstep; exact hstep
    | next s' => rw [hs] at hstep; exact ih (i + 1) s' hstep

/-- C10: in every reachable state of the consumer loop — any frame
interval, clock, producer stream and iteration count — the deque length
is at most `queue_size - 10` (290 of 300) and the `reached_max_capacity`
flag has never been raised: the consumer refuses to receive once the
remaining capacity is at most 10 and receives at most one frame per
iteration, so the deque never reaches full capacity. -/
theorem c10_queue_bounded (delta : Nat) (clock : Nat → Nat) (frames : List String)
    (fuel : Nat) :
    (reachableState delta clock frames fuel).queue.length ≤ queue_size - 10 ∧
    (reachableState delta clock frames fuel).reached_max_capacity = false :=
  loopRun_inv10 delta clock fuel 0 (initState frames) ⟨by simp [initState], rfl⟩

/-- The schedule that exhibits the broken hysteresis: renders are not due
for the first 290 iterations (the producer decodes fast, filling the
queue), then the frame interval elapses. -/
def clockC1 : Nat → Nat := fun i => if i ≤ 289 then 0 else 1000

/-- A 290-frame producer stream. -/
def framesC1 : List String := List.replicate 290 "x"

set_option maxRecDepth 10000 in
/-- C1: the hysteresis is broken — evaluation of the loop on a reachable
trace.  After 290 receive-only iterations the deque holds 290 frames
(remaining capacity 10), so the desired action crosses the low watermark:
`Stop`.  The next iteration renders one frame (capacity 11) and the
iteration after that computes desired action `Go`, even though remaining
capacity 11 is far below `queue_size / 2 = 150`: the second match arm and
the default arm both yield `Go`, so the 50%-refill rule never takes
effect (and `reached_max_capacity` is never raised at all, see C10). -/
theorem c1_hysteresis_broken_eval :
    desiredAction (reachableState 1000 clockC1 framesC1 290) = (ControlSignal.stop, false) ∧
    (reachableState 1000 clockC1 framesC1 290).queue.length = 290 ∧
    (reachableState 1000 clockC1 framesC1 291).rendered.length = 1 ∧
    desiredAction (reachableState 1000 clockC1 framesC1 291) = (ControlSignal.go, false) ∧
    queue_size - (reachableState 1000 clockC1 framesC1 291).queue.length = 11 ∧
    ¬(queue_size / 2 ≤ 11) := by
  refine ⟨?_, ?_, ?_, ?_, ?_, ?_⟩ <;> decide

theorem consumePhase_prev (s : PState) : (consumePhase s).prev = s.prev := by
  unfold consumePhase
  split_ifs with h
  · cases s.inbox with
    | nil => rfl
    | cons f rest =>
      dsimp only
      split_ifs <;> rfl
  · rfl

theorem consumePhase_renderedAt (s : PState) : (consumePhase s).renderedAt = s.renderedAt := by
  unfold consumePhase
  split_ifs with h
  · cases s.inbox with
    | nil => rfl
    | cons f rest =>
      dsimp only
      split_ifs <;> rfl
  · rfl

def Inv9 (delta : Nat) (s : PState) : Prop :=
  List.Chain' (fun a b => a + delta ≤ b) s.renderedAt ∧
  (∀ x, s.renderedAt.getLast? = some x → x ≤ s.prev)

theorem renderPhase_inv9 (delta t : Nat) (s1 : PState) (hd : 0 < delta)
    (h : Inv9 delta s1) (hdue : ¬(t - s1.prev < delta)) :
    Inv9 delta (renderPhase t s1).state := by
  obtain ⟨hchain, hlast⟩ := h
  have hprev : s1.prev + delta ≤ t := by omega
  unfold renderPhase
  cases hpop : s1.queue.getLast? with
  | none => split_ifs <;> exact ⟨hchain, hlast⟩
  | some f =>
    have hgoal : Inv9 delta
        { s1 with
          queue := s1.queue.dropLast
          rendered := s1.rendered ++ [f]
          renderedAt := s1.renderedAt ++ [t]
          prev := t } := by
      constructor
      · rw [List.chain'_append]
        refine ⟨hchain, List.chain'_singleton t, ?_⟩
        intro x hx y hy
        simp only [List.head?_cons, Option.mem_def, Option.some.injEq] at hy
        subst hy
        have := hlast x (by simpa using hx)
        omega
      · intro x hx
        simp only [List.getLast?_concat, Option.some.injEq] at hx
        dsimp only
        omega
    dsimp only
    split_ifs with hcond
    · exact ⟨hgoal.1, hgoal.2⟩
    · exact hgoal

theorem stepIter_inv9 (delta t : Nat) (s : PState) (hd : 0 < delta)
    (h : Inv9 delta s) : Inv9 delta (stepIter delta t s).state := by
  have hc : Inv9 delta (consumePhase s) := by
    unfold Inv9
    rw [consumePhase_renderedAt, consumePhase_prev]
    exact h
  unfold stepIter
  dsimp only
  split_ifs with hskip
  · exact hc
  · exact renderPhase_inv9 delta t _ hd hc hskip

theorem loopRun_inv9 (delta : Nat) (clock : Nat → Nat) (hd : 0 < delta) :
    ∀ (fuel i : Nat) (s : PState), Inv9 delta s → Inv9 delta (loopRun delta clock fuel i s).1 := by
  intro fuel
  induction fuel with
  | zero => intro i s h; exact h
  | succ fuel ih =>
    intro i s h
    have hstep := stepIter_inv9 delta (clock i) s hd h
    unfold loopRun
    cases hs : stepIter delta (clock i) s with
    | halt s' => rw [hs] at hstep; exact hstep
    | next s' => rw [hs] at hstep; exact ih (i + 1) s' hstep

/-- C9: pacing lower bound.  In every execution of the consumer loop with
a positive configured frame interval, consecutive render timestamps are
at least `delta` apart, whatever the clock, the producer stream and the
iteration count: a render only happens when `should_skip_rendering` is
false, i.e. at least `delta` past `prev`, and `prev` is exactly the
timestamp of the previous render. -/
theorem c9_pacing_lower_bound (delta : Nat) (clock : Nat → Nat) (frames : List String)
    (fuel : Nat) (hd : 0 < delta) :
    List.Chain' (fun a b => a + delta ≤ b)
      (reachableState delta clock frames fuel).renderedAt :=
  (loopRun_inv9 delta clock hd fuel 0 (initState frames)
    ⟨List.chain'_nil, by intro x hx; simp [initState] at hx⟩).1

/-- C9 witness: a concrete run with frame interval 5. -/
theorem c9_pacing_lower_bound_witness :
    (0 < 5) ∧
    List.Chain' (fun a b => a + 5 ≤ b)
      (reachableState 5 (fun i => i) ["fa", "fb"] 1).renderedAt :=
  ⟨by decide, c9_pacing_lower_bound 5 (fun i => i) ["fa", "fb"] 1 (by decide)⟩

/-! ## Termination and order preservation (C7, C8)

`InvRun` ties the consumer state to the producer stream: the rendered
frames, the deque contents (oldest last, hence reversed) and the
undelivered frames always partition the stream in order.  `mu` is the
termination measure: it drops at every receive of the sentinel and at
every render, never rises, and every iteration in which a render is due
either breaks out of the loop or strictly decreases it. -/

def InvRun (frames : List String) (s : PState) : Prop :=
  s.rendered ++ s.queue.reverse ++ s.inbox = frames ∧
  (s.stream_exhausted = true → s.inbox = [])

def mu (frames : List String) (s : PState) : Nat :=
  (s.inbox.length + s.queue.length + (if s.stream_exhausted then 0 else 1)) *
    (frames.length + 1) + s.inbox.length

theorem consumePhase_spec (frames : List String) (s : PState)
    (hn : NULL_FRAME ∉ frames) (hI : InvRun frames s) :
    InvRun frames (consumePhase s) ∧
    mu frames (consumePhase s) ≤ mu frames s ∧
    ((consumePhase s).queue = [] → (consumePhase s).stream_exhausted = true) := by
  obtain ⟨heq, hex⟩ := hI
  have hq : queue_size = 300 := rfl
  unfold consumePhase
  split_ifs with hcond
  · obtain ⟨hne, hsig⟩ := hcond
    have hexf : s.stream_exhausted = false := by
      cases hxx : s.stream_exhausted
      · rfl
      · exact absurd hxx hne
    cases hin : s.inbox with
    | nil =>
      rw [hin] at heq
      refine ⟨⟨by simpa using heq, by simp⟩, ?_, fun _ => rfl⟩
      simp only [mu, hin, hexf]
      simp
    | cons f rest =>
      have hfmem : f ∈ frames := by
        rw [← heq, hin]
        exact List.mem_append.mpr (Or.inr (List.mem_cons_self f rest))
      dsimp only
      split_ifs with hnull
      · exact absurd (hnull ▸ hfmem) hn
      · refine ⟨⟨?_, by simp [hexf]⟩, ?_, by simp⟩
        · rw [hin] at heq
          simp only [List.reverse_cons]
          rw [← heq]
          simp
        · simp [mu, hin, hexf]
          ring_nf
          omega
  · refine ⟨⟨heq, hex⟩, le_rfl, ?_⟩
    intro hqe
    replace hqe : s.queue = [] := hqe
    show s.stream_exhausted = true
    rcases (not_and_or.mp hcond) with hx | hsig
    · exact not_not.mp hx
    · have hstop : (desiredAction s).1 = ControlSignal.stop := not_not.mp hsig
      have hcap := (desiredAction_stop_iff s).mp hstop
      rw [hqe] at hcap
      simp at hcap
      omega

theorem getLast_decomp {α : Type} (l : List α) (f : α) (h : l.getLast? = some f) :
    l = l.dropLast ++ [f] := by
  have hne : l ≠ [] := by
    intro heq
    rw [heq] at h
    simp at h
  conv_lhs => rw [← List.dropLast_append_getLast hne]
  have : l.getLast hne = f := by
    rw [List.getLast?_eq_getLast l hne] at h
    exact Option.some.inj h
  rw [this]

theorem renderPhase_spec (frames : List String) (t : Nat) (s1 : PState)
    (hI : InvRun frames s1)
    (hqe : s1.queue = [] → s1.stream_exhausted = true) :
    (∃ s', renderPhase t s1 = StepResult.halt s' ∧ InvRun frames s' ∧
      s'.queue = [] ∧ s'.stream_exhausted = true) ∨
    (∃ s', renderPhase t s1 = StepResult.next s' ∧ InvRun frames s' ∧
      mu frames s' < mu frames s1) := by
  obtain ⟨heq, hex⟩ := hI
  unfold renderPhase
  cases hpop : s1.queue.getLast? with
  | none =>
    have hqnil : s1.queue = [] := by
      cases hq : s1.queue with
      | nil => rfl
      | cons a as =>
        rw [hq] at hpop
        simp [List.getLast?_concat] at hpop
    rw [if_pos (hqe hqnil)]
    exact Or.inl ⟨s1, rfl, ⟨heq, hex⟩, hqnil, hqe hqnil⟩
  | some f =>
    dsimp only
    have hdecomp : s1.queue = s1.queue.dropLast ++ [f] := getLast_decomp _ _ hpop
    have hIrender : ∀ flag : Bool,
        InvRun frames
          { s1 with
            queue := s1.queue.dropLast
            rendered := s1.rendered ++ [f]
            renderedAt := s1.renderedAt ++ [t]
            prev := t
            reached_max_capacity := flag } := by
      intro flag
      refine ⟨?_, hex⟩
      show (s1.rendered ++ [f]) ++ s1.queue.dropLast.reverse ++ s1.inbox = frames
      rw [← heq]
      conv_rhs => rw [hdecomp]
      simp
    have hmurender :
        mu frames
          { s1 with
            queue := s1.queue.dropLast
            rendered := s1.rendered ++ [f]
            renderedAt := s1.renderedAt ++ [t]
            prev := t
            reached_max_capacity := true } < mu frames s1 ∧
        mu frames
          { s1 with
            queue := s1.queue.dropLast
            rendered := s1.rendered ++ [f]
            renderedAt := s1.renderedAt ++ [t]
            prev := t } < mu frames s1 := by
      have hlen : s1.queue.dropLast.length < s1.queue.length := by
        conv_rhs => rw [hdecomp]
        simp
      have hmul : (s1.inbox.length + s1.queue.dropLast.length +
            (if s1.stream_exhausted then 0 else 1)) * (frames.length + 1) <
          (s1.inbox.length + s1.queue.length +
            (if s1.stream_exhausted then 0 else 1)) * (frames.length + 1) := by
        refine Nat.mul_lt_mul_of_lt_of_le ?_ le_rfl (by omega)
        omega
      constructor <;> · simp only [mu]; omega
    split_ifs with hcond
    · exact Or.inr ⟨_, rfl, hIrender true, hmurender.1⟩
    · exact Or.inr ⟨_, rfl, hIrender false, hmurender.2⟩

theorem stepIter_spec (delta t : Nat) (frames : List String) (s : PState)
    (hn : NULL_FRAME ∉ frames) (hI : InvRun frames s) :
    (∃ s', stepIter delta t s = StepResult.halt s' ∧ InvRun frames s' ∧
      s'.queue = [] ∧ s'.stream_exhausted = true) ∨
    (∃ s', stepIter delta t s = StepResult.next s' ∧ InvRun frames s' ∧
      (mu frames s' < mu frames s ∨ (mu frames s' ≤ mu frames s ∧ s'.prev = s.prev))) := by
  obtain ⟨hI1, hmu1, hqe1⟩ := consumePhase_spec frames s hn hI
  unfold stepIter
  dsimp only
  split_ifs with hskip
  · exact Or.inr ⟨_, rfl, hI1, Or.inr ⟨hmu1, consumePhase_prev s⟩⟩
  · rcases renderPhase_spec frames t _ hI1 hqe1 with ⟨s', hr, hI', hq', he'⟩ | ⟨s', hr, hI', hmu'⟩
    · exact Or.inl ⟨s', hr, hI', hq', he'⟩
    · exact Or.inr ⟨s', hr, hI', Or.inl (lt_of_lt_of_le hmu' hmu1)⟩

theorem stepIter_due_spec (delta t : Nat) (frames : List String) (s : PState)
    (hn : NULL_FRAME ∉ frames) (hI : InvRun frames s)
    (hdue : ¬(t - s.prev < delta)) :
    (∃ s', stepIter delta t s = StepResult.halt s' ∧ InvRun frames s' ∧
      s'.queue = [] ∧ s'.stream_exhausted = true) ∨
    (∃ s', stepIter delta t s = StepResult.next s' ∧ InvRun frames s' ∧
      mu frames s' < mu frames s) := by
  obtain ⟨hI1, hmu1, hqe1⟩ := consumePhase_spec frames s hn hI
  unfold stepIter
  dsimp only
  rw [if_neg (by rw [consumePhase_prev]; exact hdue)]
  rcases renderPhase_spec frames t _ hI1 hqe1 with ⟨s', hr, hI', hq', he'⟩ | ⟨s', hr, hI', hmu'⟩
  · exact Or.inl ⟨s', hr, hI', hq', he'⟩
  · exact Or.inr ⟨s', hr, hI', lt_of_lt_of_le hmu' hmu1⟩

theorem rendered_of_final (frames : List String) (s' : PState) (hI : InvRun frames s')
    (hq : s'.queue = []) (he : s'.stream_exhausted = true) : s'.rendered = frames := by
  obtain ⟨heq, hex⟩ := hI
  rw [hq, hex he] at heq
  simpa using heq

/-- The master run theorem: under a clock that is unbounded from every
iteration onwards (true of real time), the consumer loop reaches its
`break` within finite fuel, and the final rendered list is exactly the
producer's stream, in order. -/
theorem play_master (delta : Nat) (clock : Nat → Nat) (frames : List String)
    (hn : NULL_FRAME ∉ frames)
    (hclock : ∀ m B, ∃ k, m ≤ k ∧ B ≤ clock k) :
    ∀ (n i : Nat) (s : PState), InvRun frames s → mu frames s ≤ n →
      ∃ fuel s', loopRun delta clock fuel i s = (s', true) ∧ s'.rendered = frames := by
  intro n
  induction n using Nat.strong_induction_on with
  | _ n IH =>
    have inner : ∀ (d i : Nat) (s : PState), InvRun frames s → mu frames s ≤ n →
        s.prev + delta ≤ clock (i + d) →
        ∃ fuel s', loopRun delta clock fuel i s = (s', true) ∧ s'.rendered = frames := by
      intro d
      induction d with
      | zero =>
        intro i s hI hmu hc
        simp only [Nat.add_zero] at hc
        have hdue : ¬(clock i - s.prev < delta) := by omega
        rcases stepIter_due_spec delta (clock i) frames s hn hI hdue with
          ⟨s', hstep, hI', hq', he'⟩ | ⟨s', hstep, hI', hlt⟩
        · exact ⟨1, s', by simp [loopRun, hstep], rendered_of_final frames s' hI' hq' he'⟩
        · obtain ⟨fuel, s'', hrun, hfin⟩ :=
            IH (mu frames s') (lt_of_lt_of_le hlt hmu) (i + 1) s' hI' le_rfl
          exact ⟨fuel + 1, s'', by simp only [loopRun, hstep]; exact hrun, hfin⟩
      | succ d ihd =>
        intro i s hI hmu hc
        rcases stepIter_spec delta (clock i) frames s hn hI with
          ⟨s', hstep, hI', hq', he'⟩ | ⟨s', hstep, hI', hcase⟩
        · exact ⟨1, s', by simp [loopRun, hstep], rendered_of_final frames s' hI' hq' he'⟩
        · rcases hcase with hlt | ⟨hle, hprev⟩
          · obtain ⟨fuel, s'', hrun, hfin⟩ :=
              IH (mu frames s') (lt_of_lt_of_le hlt hmu) (i + 1) s' hI' le_rfl
            exact ⟨fuel + 1, s'', by simp only [loopRun, hstep]; exact hrun, hfin⟩
          · obtain ⟨fuel, s'', hrun, hfin⟩ :=
              ihd (i + 1) s' hI' (le_trans hle hmu)
                (by rw [hprev, show i + 1 + d = i + (d + 1) by omega]; exact hc)
            exact ⟨fuel + 1, s'', by simp only [loopRun, hstep]; exact hrun, hfin⟩
    intro i s hI hmu
    obtain ⟨k, hik, hB⟩ := hclock i (s.prev + delta)
    exact inner (k - i) i s hI hmu (by rw [show i + (k - i) = k by omega]; exact hB)

theorem init_invRun (frames : List String) : InvRun frames (initState frames) :=
  ⟨by simp [initState], by simp [initState]⟩

theorem loopRun_invRun (delta : Nat) (clock : Nat → Nat) (frames : List String)
    (hn : NULL_FRAME ∉ frames) :
    ∀ (fuel i : Nat) (s : PState), InvRun frames s →
      InvRun frames (loopRun delta clock fuel i s).1 := by
  intro fuel
  induction fuel with
  | zero => intro i s h; exact h
  | succ fuel ih =>
    intro i s h
    rcases stepIter_spec delta (clock i) frames s hn h with
      ⟨s', hstep, hI', _, _⟩ | ⟨s', hstep, hI', _⟩
    · simp only [loopRun, hstep]
      exact hI'
    · simp only [loopRun, hstep]
      exact ih (i + 1) s' hI'

/-- C7: termination with an exact render count.  For every finite
producer stream of `N` frames (none of which is the sentinel text) and
every schedule — any frame interval and any clock that, from every
iteration onwards, eventually reaches any bound, which is how real time
behaves — the consumer loop `break`s within finite fuel having rendered
exactly `N` frames. -/
theorem c7_termination (delta : Nat) (clock : Nat → Nat) (frames : List String)
    (hn : NULL_FRAME ∉ frames)
    (hclock : ∀ m B, ∃ k, m ≤ k ∧ B ≤ clock k) :
    ∃ fuel s', loopRun delta clock fuel 0 (initState frames) = (s', true) ∧
      s'.rendered.length = frames.length := by
  obtain ⟨fuel, s', hrun, hfin⟩ := play_master delta clock frames hn hclock
    (mu frames (initState frames)) 0 (initState frames) (init_invRun frames) le_rfl
  exact ⟨fuel, s', hrun, by rw [hfin]⟩

/-- C7 witness: a two-frame stream under the identity clock. -/
theorem c7_termination_witness :
    (NULL_FRAME ∉ (["fr1", "fr2"] : List String)) ∧
    (∃ fuel s', loopRun 0 (fun n => n) fuel 0 (initState ["fr1", "fr2"]) = (s', true) ∧
      s'.rendered.length = (["fr1", "fr2"] : List String).length) :=
  ⟨by decide, c7_termination 0 (fun n => n) ["fr1", "fr2"] (by decide)
    (fun m B => ⟨max m B, Nat.le_max_left m B, Nat.le_max_right m B⟩)⟩

/-- C8: order preservation.  At every point of every execution the list
of rendered frames is a prefix of the producer's stream (the channel is
FIFO and the deque pushes at the front and pops at the back), and every
terminating run renders exactly the full stream in the order it was
sent. -/
theorem c8_order_preservation (delta : Nat) (clock : Nat → Nat) (frames : List String)
    (hn : NULL_FRAME ∉ frames)
    (hclock : ∀ m B, ∃ k, m ≤ k ∧ B ≤ clock k) :
    (∀ fuel : Nat, List.IsPrefix (reachableState delta clock frames fuel).rendered frames) ∧
    (∃ fuel s', loopRun delta clock fuel 0 (initState frames) = (s', true) ∧
      s'.rendered = frames) := by
  constructor
  · intro fuel
    obtain ⟨heq, _⟩ := loopRun_invRun delta clock frames hn fuel 0 (initState frames)
      (init_invRun frames)
    exact ⟨(reachableState delta clock frames fuel).queue.reverse ++
      (reachableState delta clock frames fuel).inbox, by rw [← List.append_assoc]; exact heq⟩
  · exact play_master delta clock frames hn hclock (mu frames (initState frames)) 0
      (initState frames) (init_invRun frames) le_rfl

/-- C8 witness: a three-frame stream under a stretched clock. -/
theorem c8_order_preservation_witness :
    (NULL_FRAME ∉ (["p1", "p2", "p3"] : List String)) ∧
    List.IsPrefix (reachableState 2 (fun n => 3 * n) ["p1", "p2", "p3"] 1).rendered
      ["p1", "p2", "p3"] ∧
    (∃ fuel s', loopRun 2 (fun n => 3 * n) fuel 0 (initState ["p1", "p2", "p3"]) = (s', true) ∧
      s'.rendered = ["p1", "p2", "p3"]) := by
  have hclock : ∀ m B : Nat, ∃ k, m ≤ k ∧ B ≤ 3 * k := by
    intro m B
    refine ⟨max m B, Nat.le_max_left m B, ?_⟩
    have := Nat.le_max_right m B
    omega
  exact ⟨by decide,
    (c8_order_preservation 2 (fun n => 3 * n) ["p1", "p2", "p3"] (by decide) hclock).1 1,
    (c8_order_preservation 2 (fun n => 3 * n) ["p1", "p2", "p3"] (by decide) hclock).2⟩
